import Mathlib

namespace InventoryBridge

/-- JavaScript values as they occur in this bridge: the results of JSON
decoding plus the undefined value that reading a missing field yields. -/
inductive JVal where
  | undefined
  | null
  | bool (b : Bool)
  | num (q : Rat)
  | str (s : String)
  | arr (elems : List JVal)
  | obj (fields : List (String × JVal))

/-- JavaScript truthiness of a value, as used by logical-or defaulting. -/
def jtruthy : JVal → Bool
  | .undefined => false
  | .null => false
  | .bool b => b
  | .num q => decide (q ≠ 0)
  | .str s => decide (s ≠ "")
  | .arr _ => true
  | .obj _ => true

/-- JavaScript logical or: the left operand when truthy, else the right. -/
def jor (a b : JVal) : JVal := if jtruthy a then a else b

/-- Assignment of a key in a JavaScript object: an existing key keeps its
position and receives the new value, a fresh key is appended at the end. -/
def objSet (fs : List (String × JVal)) (k : String) (v : JVal) : List (String × JVal) :=
  if fs.any (fun p => p.1 = k) then
    fs.map (fun p => if p.1 = k then (k, v) else p)
  else
    fs ++ [(k, v)]

/-- Lookup of a field in an object field list; the first binding wins.
Field lists built by objSet carry at most one binding per key. -/
def jlookup (fs : List (String × JVal)) (k : String) : Option JVal :=
  (fs.find? (fun p => p.1 = k)).map Prod.snd

/-- JavaScript property read: reading any property of null or undefined
throws, reading a missing field of an object yields undefined, and reading
a named field of another primitive yields undefined. -/
def jget : JVal → String → Except Unit JVal
  | .null, _ => .error ()
  | .undefined, _ => .error ()
  | .obj fs, k => .ok ((jlookup fs k).getD .undefined)
  | _, _ => .ok .undefined

/-- Own enumerable fields seen by the object spread: an object contributes
its fields, a string its characters under numeric keys, an array its
elements under numeric keys, and every other value contributes none. -/
def spreadFields : JVal → List (String × JVal)
  | .obj fs => fs
  | .str s => ((List.range s.length).zip s.toList).map
      (fun p => (toString p.1, JVal.str (String.mk [p.2])))
  | .arr xs => ((List.range xs.length).zip xs).map (fun p => (toString p.1, p.2))
  | _ => []

/-- Folding a list of fields into a record one assignment at a time: the
semantics of an object spread that follows earlier literal fields. -/
def overlay (base : List (String × JVal)) (fs : List (String × JVal)) : List (String × JVal) :=
  fs.foldl (fun acc kv => objSet acc kv.1 kv.2) base

/-- The enriched alert record built for a message on the alerts channel,
mirroring the object literal in the source: default-bearing fields first,
then the spread of the decoded payload written last, so every field the
payload carries overwrites the corresponding earlier field. Property reads
on a null payload throw into the surrounding catch, which the error case
models. The parameter now stands for the ISO timestamp string taken at
enrichment time. -/
def alertData (now : String) (data : JVal) : Except Unit JVal := do
  let msg ← jget data "message"
  let cc ← jget data "current_count"
  let th ← jget data "threshold"
  let sev ← jget data "severity"
  let ts ← jget data "timestamp"
  let base : List (String × JVal) :=
    [("type", JVal.str "count_exceeded"),
     ("message", jor msg (JVal.str "Item count exceeded the limit.")),
     ("current_count", cc),
     ("threshold", th),
     ("severity", jor sev (JVal.str "warning")),
     ("timestamp", jor ts (JVal.str now))]
  .ok (JVal.obj (overlay base (spreadFields data)))

/-- Digits of a decimal literal folded into a natural number. -/
def digitsToNat (ds : List Char) : Nat :=
  ds.foldl (fun n c => 10 * n + (c.toNat - 48)) 0

/-- Whitespace accepted between JSON tokens. -/
def isJsonWs (c : Char) : Bool :=
  c = ' ' || c = '\t' || c = '\n' || c = '\r'

/-- Drop leading JSON whitespace. -/
def skipWs (cs : List Char) : List Char := cs.dropWhile isJsonWs

/-- Value of one hexadecimal digit, if the character is one. -/
def hexVal (c : Char) : Option Nat :=
  if '0' ≤ c ∧ c ≤ '9' then some (c.toNat - 48)
  else if 'a' ≤ c ∧ c ≤ 'f' then some (c.toNat - 87)
  else if 'A' ≤ c ∧ c ≤ 'F' then some (c.toNat - 55)
  else none

/-- Body of a JSON string after the opening quote: returns the decoded
characters and the input following the closing quote. Escapes follow the
JSON grammar; a unicode escape becomes the character with that code. -/
def parseStringBody : List Char → Except Unit (List Char × List Char)
  | [] => .error ()
  | '"' :: rest => .ok ([], rest)
  | '\\' :: '"' :: rest => (parseStringBody rest).map (fun p => ('"' :: p.1, p.2))
  | '\\' :: '\\' :: rest => (parseStringBody rest).map (fun p => ('\\' :: p.1, p.2))
  | '\\' :: '/' :: rest => (parseStringBody rest).map (fun p => ('/' :: p.1, p.2))
  | '\\' :: 'b' :: rest => (parseStringBody rest).map (fun p => ('\x08' :: p.1, p.2))
  | '\\' :: 'f' :: rest => (parseStringBody rest).map (fun p => ('\x0c' :: p.1, p.2))
  | '\\' :: 'n' :: rest => (parseStringBody rest).map (fun p => ('\n' :: p.1, p.2))
  | '\\' :: 'r' :: rest => (parseStringBody rest).map (fun p => ('\r' :: p.1, p.2))
  | '\\' :: 't' :: rest => (parseStringBody rest).map (fun p => ('\t' :: p.1, p.2))
  | '\\' :: 'u' :: a :: b :: c :: d :: rest =>
    match hexVal a, hexVal b, hexVal c, hexVal d with
    | some ha, some hb, some hc, some hd =>
      (parseStringBody rest).map
        (fun p => (Char.ofNat (4096 * ha + 256 * hb + 16 * hc + hd) :: p.1, p.2))
    | _, _, _, _ => .error ()
  | '\\' :: _ => .error ()
  | c :: rest =>
    if c.toNat < 32 then .error ()
    else (parseStringBody rest).map (fun p => (c :: p.1, p.2))

/-- Integer part of a JSON number: a lone zero or a nonzero-led digit run. -/
def parseIntPart : List Char → Except Unit (Nat × List Char)
  | '0' :: r => if (r.headD 'x').isDigit then .error () else .ok (0, r)
  | r =>
    let ds := r.takeWhile Char.isDigit
    if ds.isEmpty then .error () else .ok (digitsToNat ds, r.dropWhile Char.isDigit)

/-- Fraction part of a JSON number: numerator, digit count, and the rest. -/
def parseFrac : List Char → Except Unit (Nat × Nat × List Char)
  | '.' :: r =>
    let ds := r.takeWhile Char.isDigit
    if ds.isEmpty then .error ()
    else .ok (digitsToNat ds, ds.length, r.dropWhile Char.isDigit)
  | cs => .ok (0, 0, cs)

/-- Exponent digits with an optional sign, after the exponent marker. -/
def parseExpTail (r : List Char) : Except Unit (Int × List Char) :=
  let sr : Int × List Char :=
    match r with
    | '+' :: t => (1, t)
    | '-' :: t => (-1, t)
    | _ => (1, r)
  let ds := sr.2.takeWhile Char.isDigit
  if ds.isEmpty then .error ()
  else .ok (sr.1 * (digitsToNat ds : Int), sr.2.dropWhile Char.isDigit)

/-- Optional exponent part of a JSON number. -/
def parseExp : List Char → Except Unit (Int × List Char)
  | 'e' :: r => parseExpTail r
  | 'E' :: r => parseExpTail r
  | cs => .ok (0, cs)

/-- Exact rational value of a JSON number from its parsed parts. -/
def ratOfParts (neg : Bool) (ip fnum fden : Nat) (e : Int) : Rat :=
  let mag : Rat := ((ip : Rat) + (fnum : Rat) / ((10 : Rat) ^ fden)) * (10 : Rat) ^ e
  if neg then -mag else mag

/-- A JSON number literal, following the JSON grammar, read exactly as a
rational; the hosting runtime would round to a float, a difference that
does not affect the integer payloads this bridge handles. -/
def parseNumber (cs0 : List Char) : Except Unit (Rat × List Char) := do
  let sc : Bool × List Char :=
    match cs0 with
    | '-' :: r => (true, r)
    | _ => (false, cs0)
  let (ip, cs2) ← parseIntPart sc.2
  let (fnum, fden, cs3) ← parseFrac cs2
  let (e, cs4) ← parseExp cs3
  .ok (ratOfParts sc.1 ip fnum fden e, cs4)

/-- Mode of the recursive descent: a single value, the remaining elements
of an array, or the remaining members of an object. -/
inductive PMode where
  | value
  | elems (acc : List JVal)
  | members (acc : List (String × JVal))

/-- Recursive descent over JSON text, structurally recursive on fuel, so
that concrete inputs evaluate by definitional reduction. Duplicate object
keys are resolved by objSet: last value wins, first position kept. -/
def parseCore (fuel : Nat) (mode : PMode) (cs : List Char) : Except Unit (JVal × List Char) :=
  match fuel with
  | 0 => .error ()
  | f + 1 =>
    match mode with
    | .value =>
      match skipWs cs with
      | 'n' :: 'u' :: 'l' :: 'l' :: r => .ok (.null, r)
      | 't' :: 'r' :: 'u' :: 'e' :: r => .ok (.bool true, r)
      | 'f' :: 'a' :: 'l' :: 's' :: 'e' :: r => .ok (.bool false, r)
      | '"' :: r => (parseStringBody r).map (fun p => (JVal.str (String.mk p.1), p.2))
      | '[' :: r =>
        (match skipWs r with
         | ']' :: r2 => .ok (.arr [], r2)
         | r2 => parseCore f (.elems []) r2)
      | '{' :: r =>
        (match skipWs r with
         | '}' :: r2 => .ok (.obj [], r2)
         | r2 => parseCore f (.members []) r2)
      | r => (parseNumber r).map (fun p => (JVal.num p.1, p.2))
    | .elems acc => do
      let (v, rest) ← parseCore f .value cs
      match skipWs rest with
      | ',' :: r => parseCore f (.elems (acc ++ [v])) r
      | ']' :: r => .ok (.arr (acc ++ [v]), r)
      | _ => .error ()
    | .members acc =>
      match skipWs cs with
      | '"' :: r => do
        let (kcs, r1) ← parseStringBody r
        match skipWs r1 with
        | ':' :: r2 => do
          let (v, rest) ← parseCore f .value r2
          match skipWs rest with
          | ',' :: r3 => parseCore f (.members (objSet acc (String.mk kcs) v)) r3
          | '}' :: r3 => .ok (.obj (objSet acc (String.mk kcs) v), r3)
          | _ => .error ()
        | _ => .error ()
      | _ => .error ()

/-- The JSON decode applied to one raw broker payload: a value surrounded
only by whitespace, or a decode error. The fuel bound exceeds the number
of descent steps any input of this length can take. -/
def jsonParse (s : String) : Except Unit JVal := do
  let cs := s.toList
  let (v, rest) ← parseCore (2 * cs.length + 2) .value cs
  if (skipWs rest).isEmpty then .ok v else .error ()

/-- One outbound send: target none is the broadcast reaching every
connected client, target some r is the emission scoped to room r. -/
structure Emission where
  target : Option String
  event : String
  payload : JVal

/-- Console output of the handlers, abstracted to the data each line
carries. -/
inductive LogEntry where
  | received (channel : String) (data : JVal)
  | errorParsing
  | raw (message : String)
  | clientConnected (sid : String)
  | clientJoined (sid room : String)
  | clientLeft (sid room : String)
  | clientDisconnected (sid : String)

/-- Channel named by a log line, when the line carries one. -/
def logChannel : LogEntry → Option String
  | .received c _ => some c
  | _ => none

/-- Classification of one decoded message by its channel: the inventory
channel forwards the decoded value twice under inventory-update, the
alerts channel enriches and forwards twice under inventory-alert, and any
other channel produces nothing. An error propagates the throw from the
alert enrichment. -/
def dispatch (now : String) (channel : String) (data : JVal) : Except Unit (List Emission) :=
  if channel = "inventory" then
    .ok [⟨none, "inventory-update", data⟩,
         ⟨some "inventory-updates", "inventory-update", data⟩]
  else if channel = "inventory-alerts" then
    (alertData now data).map
      (fun a => [⟨none, "inventory-alert", a⟩,
                 ⟨some "inventory-alerts", "inventory-alert", a⟩])
  else
    .ok []

/-- The whole broker message handler: decode inside a try block, log the
received value, classify and emit; any throw lands in the catch branch,
which logs the error and then the raw payload and emits nothing. -/
def onRedisMessage (now channel message : String) : List Emission × List LogEntry :=
  match jsonParse message with
  | .error _ => ([], [.errorParsing, .raw message])
  | .ok data =>
    match dispatch now channel data with
    | .ok ems => (ems, [.received channel data])
    | .error _ => ([], [.received channel data, .errorParsing, .raw message])

/-- Server-side view of the connected sockets: one entry per connection,
carrying the socket id and the rooms it has joined, in join order. -/
abbrev ServerState := List (String × List String)

/-- Pointwise update of one connection entry by socket id. -/
def updateRooms (st : ServerState) (sid : String) (f : List String → List String) : ServerState :=
  st.map (fun e => if e.1 = sid then (e.1, f e.2) else e)

/-- Modelled from the spec: the room registry of the websocket library is
not part of this repository; section 4.4 specifies join as idempotent
insertion into the connection room set. -/
def socketJoin (st : ServerState) (sid room : String) : ServerState :=
  updateRooms st sid (fun rs => if room ∈ rs then rs else rs ++ [room])

/-- Modelled from the spec: section 4.4 specifies leave as removal from the
connection room set, a no-op when the room was not joined. -/
def socketLeave (st : ServerState) (sid room : String) : ServerState :=
  updateRooms st sid (fun rs => rs.filter (fun r => r ≠ room))

/-- Rooms currently joined by a socket id, empty when not connected. -/
def roomsOf (st : ServerState) (sid : String) : List String :=
  match st.find? (fun e => e.1 = sid) with
  | some e => e.2
  | none => []

/-- Whether a socket id has a live connection entry. -/
def isConnected (st : ServerState) (sid : String) : Bool :=
  st.any (fun e => e.1 = sid)

/-- Whether a connection is currently a member of a room. -/
def memberOf (st : ServerState) (sid room : String) : Bool :=
  decide (room ∈ roomsOf st sid)

/-- Modelled from the spec: delivery of one emission per section 4.5 — a
broadcast reaches every connected client and a room-scoped emission
reaches exactly the current members of that room. -/
def deliveredTo (st : ServerState) (sid : String) (e : Emission) : Bool :=
  match e.target with
  | none => isConnected st sid
  | some r => memberOf st sid r

/-- Number of deliveries of a given event name that one client receives
from a list of emissions under the current registry. -/
def receivedCount (st : ServerState) (sid event : String) (ems : List Emission) : Nat :=
  (ems.filter (fun e => deliveredTo st sid e && e.event == event)).length

/-- The inputs the single-threaded event loop interleaves: a broker
message carrying the clock reading used for enrichment, and the client
lifecycle and room requests. -/
inductive ServerInput where
  | redisMsg (now channel message : String)
  | connect (sid : String)
  | joinInventoryUpdates (sid : String)
  | joinInventoryAlerts (sid : String)
  | leaveInventoryUpdates (sid : String)
  | leaveInventoryAlerts (sid : String)
  | disconnect (sid : String)

/-- Connection that issued an input, when the input came from a client. -/
def actor : ServerInput → Option String
  | .redisMsg _ _ _ => none
  | .connect sid => some sid
  | .joinInventoryUpdates sid => some sid
  | .joinInventoryAlerts sid => some sid
  | .leaveInventoryUpdates sid => some sid
  | .leaveInventoryAlerts sid => some sid
  | .disconnect sid => some sid

/-- One pass of the event loop: broker messages dispatch without touching
the registry, client requests mutate only that connection entry, and a
disconnect discards the entry together with its memberships. -/
def step (st : ServerState) : ServerInput → ServerState × List Emission × List LogEntry
  | .redisMsg now channel message => (st, onRedisMessage now channel message)
  | .connect sid => (st ++ [(sid, [])], [], [.clientConnected sid])
  | .joinInventoryUpdates sid =>
    (socketJoin st sid "inventory-updates", [], [.clientJoined sid "inventory-updates"])
  | .joinInventoryAlerts sid =>
    (socketJoin st sid "inventory-alerts", [], [.clientJoined sid "inventory-alerts"])
  | .leaveInventoryUpdates sid =>
    (socketLeave st sid "inventory-updates", [], [.clientLeft sid "inventory-updates"])
  | .leaveInventoryAlerts sid =>
    (socketLeave st sid "inventory-alerts", [], [.clientLeft sid "inventory-alerts"])
  | .disconnect sid => (st.filter (fun e => e.1 ≠ sid), [], [.clientDisconnected sid])

theorem onRedisMessage_ok {message : String} {data : JVal}
    (h : jsonParse message = .ok data) (now channel : String) :
    onRedisMessage now channel message =
      (match dispatch now channel data with
       | .ok ems => (ems, [.received channel data])
       | .error _ => ([], [.received channel data, .errorParsing, .raw message])) := by
  unfold onRedisMessage
  rw [h]

theorem onRedisMessage_err {message : String} {e : Unit}
    (h : jsonParse message = .error e) (now channel : String) :
    onRedisMessage now channel message = ([], [.errorParsing, .raw message]) := by
  unfold onRedisMessage
  rw [h]

/-- C2: a payload carrying only the two count fields receives the default
type, message and severity, the counts verbatim, and the enrichment-time
timestamp. -/
theorem alert_gaps_filled_with_defaults (now : String) :
    alertData now (.obj [("current_count", .num 150), ("threshold", .num 100)]) =
      .ok (.obj [("type", .str "count_exceeded"),
                 ("message", .str "Item count exceeded the limit."),
                 ("current_count", .num 150),
                 ("threshold", .num 100),
                 ("severity", .str "warning"),
                 ("timestamp", .str now)]) := rfl

/-- C9: the well-formed payload null is dropped on the alerts channel,
where a property read on null throws into the catch branch, yet the same
payload is passed through and emitted twice on the inventory channel. -/
theorem null_payload_dropped_on_alerts_only (now : String) :
    onRedisMessage now "inventory-alerts" "null" =
      ([], [.received "inventory-alerts" .null, .errorParsing, .raw "null"]) ∧
    onRedisMessage now "inventory" "null" =
      ([⟨none, "inventory-update", .null⟩,
        ⟨some "inventory-updates", "inventory-update", .null⟩],
       [.received "inventory" .null]) := ⟨rfl, rfl⟩

/-- C8 counterexample: a present but falsy severity, the empty string, is
not replaced by the default warning in the emitted record; the trailing
spread overlays the default with the falsy payload value. -/
theorem falsy_severity_survives_counterexample :
    alertData "T" (.obj [("severity", .str "")]) =
      .ok (.obj [("type", .str "count_exceeded"),
                 ("message", .str "Item count exceeded the limit."),
                 ("current_count", .undefined),
                 ("threshold", .undefined),
                 ("severity", .str ""),
                 ("timestamp", .str "T")]) ∧
    JVal.str "" ≠ JVal.str "warning" := by
  refine ⟨rfl, fun h => ?_⟩
  injection h with h2
  exact absurd h2 (by decide)

/-- C8 amended: a field present in the payload keeps its payload value in
the emitted record even when falsy, because the spread is written last;
the logical-or defaults only take effect for absent fields. -/
theorem present_field_wins_even_when_falsy (now s : String) :
    alertData now (.obj [("severity", JVal.str s)]) =
      .ok (.obj [("type", .str "count_exceeded"),
                 ("message", .str "Item count exceeded the limit."),
                 ("current_count", .undefined),
                 ("threshold", .undefined),
                 ("severity", JVal.str s),
                 ("timestamp", .str now)]) := rfl

/-- C4 counterexample: on a payload that fails to decode the handler logs
the error line and the raw payload, but no produced log line carries the
channel name. -/
theorem parse_failure_channel_not_logged :
    onRedisMessage "T" "inventory" "not json" = ([], [.errorParsing, .raw "not json"]) ∧
    (onRedisMessage "T" "inventory" "not json").2.filterMap logChannel = [] := ⟨rfl, rfl⟩

/-- C4 amended: a payload that fails to decode is logged (error line plus
raw payload, without the channel), emits nothing to any client, leaves the
registry untouched, and the handler returns normally, so any subsequent
input is processed exactly as if the failure had not happened. -/
theorem parse_failure_recovered (now channel message : String) (st : ServerState)
    (next : ServerInput) (h : jsonParse message = .error ()) :
    onRedisMessage now channel message = ([], [.errorParsing, .raw message]) ∧
    step st (.redisMsg now channel message) = (st, [], [.errorParsing, .raw message]) ∧
    step (step st (.redisMsg now channel message)).1 next = step st next := by
  refine ⟨onRedisMessage_err h now channel, ?_, rfl⟩
  show (st, onRedisMessage now channel message) = _
  rw [onRedisMessage_err h now channel]

theorem parse_failure_recovered_witness :
    jsonParse "not json" = .error () ∧
    (onRedisMessage "T" "other" "not json" = ([], [.errorParsing, .raw "not json"]) ∧
     step [("a", [])] (.redisMsg "T" "other" "not json") =
       ([("a", [])], [], [.errorParsing, .raw "not json"]) ∧
     step (step [("a", [])] (.redisMsg "T" "other" "not json")).1
         (.redisMsg "T" "inventory" "null") =
       step [("a", [])] (.redisMsg "T" "inventory" "null")) :=
  ⟨rfl, parse_failure_recovered "T" "other" "not json" [("a", [])]
      (.redisMsg "T" "inventory" "null") rfl⟩

/-- C5: a successfully decoded message on any channel other than the two
subscribed ones produces no emission to any client. -/
theorem unknown_channel_silently_ignored (now channel message : String) (v : JVal)
    (h : jsonParse message = .ok v) (h1 : channel ≠ "inventory")
    (h2 : channel ≠ "inventory-alerts") :
    (onRedisMessage now channel message).1 = [] := by
  rw [onRedisMessage_ok h now channel]
  unfold dispatch
  rw [if_neg h1, if_neg h2]

theorem unknown_channel_silently_ignored_witness :
    jsonParse "true" = .ok (.bool true) ∧ "other" ≠ "inventory" ∧
    "other" ≠ "inventory-alerts" ∧
    (onRedisMessage "T" "other" "true").1 = [] :=
  ⟨rfl, by decide, by decide,
   unknown_channel_silently_ignored "T" "other" "true" (.bool true) rfl
     (by decide) (by decide)⟩

/-- C10: one alert message produces exactly two emissions and both carry
the same enriched record, computed once, so the timestamps agree. -/
theorem alert_double_emission_shares_one_record (now message : String) (data a : JVal)
    (h : jsonParse message = .ok data) (ha : alertData now data = .ok a) :
    (onRedisMessage now "inventory-alerts" message).1 =
      [⟨none, "inventory-alert", a⟩, ⟨some "inventory-alerts", "inventory-alert", a⟩] := by
  rw [onRedisMessage_ok h now "inventory-alerts"]
  unfold dispatch
  rw [if_neg (by decide : ¬("inventory-alerts" = "inventory")), if_pos rfl, ha]
  rfl

theorem alert_double_emission_shares_one_record_witness :
    jsonParse "\x7b\x7d" = .ok (.obj []) ∧
    alertData "T" (.obj []) =
      .ok (.obj [("type", .str "count_exceeded"),
                 ("message", .str "Item count exceeded the limit."),
                 ("current_count", .undefined),
                 ("threshold", .undefined),
                 ("severity", .str "warning"),
                 ("timestamp", .str "T")]) ∧
    (onRedisMessage "T" "inventory-alerts" "\x7b\x7d").1 =
      [⟨none, "inventory-alert",
        .obj [("type", .str "count_exceeded"),
              ("message", .str "Item count exceeded the limit."),
              ("current_count", .undefined),
              ("threshold", .undefined),
              ("severity", .str "warning"),
              ("timestamp", .str "T")]⟩,
       ⟨some "inventory-alerts", "inventory-alert",
        .obj [("type", .str "count_exceeded"),
              ("message", .str "Item count exceeded the limit."),
              ("current_count", .undefined),
              ("threshold", .undefined),
              ("severity", .str "warning"),
              ("timestamp", .str "T")]⟩] :=
  ⟨rfl, rfl, alert_double_emission_shares_one_record "T" "\x7b\x7d" (.obj []) _ rfl rfl⟩

/-- C3: a valid JSON object on the inventory channel yields exactly two
inventory-update emissions carrying the object unchanged, one broadcast
and one scoped to the room, so a connected member of the room receives the
event twice and a connected non-member once. -/
theorem inventory_update_double_emission (st : ServerState) (now message sid : String)
    (fs : List (String × JVal)) (h : jsonParse message = .ok (.obj fs))
    (hc : isConnected st sid = true) :
    (onRedisMessage now "inventory" message).1 =
      [⟨none, "inventory-update", .obj fs⟩,
       ⟨some "inventory-updates", "inventory-update", .obj fs⟩] ∧
    receivedCount st sid "inventory-update" (onRedisMessage now "inventory" message).1 =
      (if memberOf st sid "inventory-updates" then 2 else 1) := by
  have he : (onRedisMessage now "inventory" message).1 =
      [⟨none, "inventory-update", .obj fs⟩,
       ⟨some "inventory-updates", "inventory-update", .obj fs⟩] := by
    rw [onRedisMessage_ok h now "inventory"]
    unfold dispatch
    rw [if_pos rfl]
  refine ⟨he, ?_⟩
  rw [he]
  unfold receivedCount
  cases hm : memberOf st sid "inventory-updates" with
  | true => simp [List.filter, deliveredTo, hc, hm]
  | false => simp [List.filter, deliveredTo, hc, hm]

theorem inventory_update_double_emission_witness :
    jsonParse "\x7b\x7d" = .ok (.obj []) ∧
    isConnected [("a", ["inventory-updates"]), ("b", [])] "a" = true ∧
    isConnected [("a", ["inventory-updates"]), ("b", [])] "b" = true ∧
    (receivedCount [("a", ["inventory-updates"]), ("b", [])] "a" "inventory-update"
        (onRedisMessage "T" "inventory" "\x7b\x7d").1 =
      (if memberOf [("a", ["inventory-updates"]), ("b", [])] "a" "inventory-updates"
       then 2 else 1)) ∧
    (receivedCount [("a", ["inventory-updates"]), ("b", [])] "b" "inventory-update"
        (onRedisMessage "T" "inventory" "\x7b\x7d").1 =
      (if memberOf [("a", ["inventory-updates"]), ("b", [])] "b" "inventory-updates"
       then 2 else 1)) ∧
    memberOf [("a", ["inventory-updates"]), ("b", [])] "a" "inventory-updates" = true ∧
    memberOf [("a", ["inventory-updates"]), ("b", [])] "b" "inventory-updates" = false :=
  ⟨rfl, rfl, rfl,
   (inventory_update_double_emission [("a", ["inventory-updates"]), ("b", [])]
      "T" "\x7b\x7d" "a" [] rfl rfl).2,
   (inventory_update_double_emission [("a", ["inventory-updates"]), ("b", [])]
      "T" "\x7b\x7d" "b" [] rfl rfl).2,
   by decide, by decide⟩

theorem roomsOf_cons_eq (e : String × List String) (rest : ServerState) (sid : String)
    (h : e.1 = sid) : roomsOf (e :: rest) sid = e.2 := by
  unfold roomsOf
  rw [List.find?_cons_of_pos _ (by simp [h])]

theorem roomsOf_cons_ne (e : String × List String) (rest : ServerState) (sid : String)
    (h : e.1 ≠ sid) : roomsOf (e :: rest) sid = roomsOf rest sid := by
  unfold roomsOf
  rw [List.find?_cons_of_neg _ (by simp [h])]

theorem socketJoin_idem (st : ServerState) (sid room : String) :
    socketJoin (socketJoin st sid room) sid room = socketJoin st sid room := by
  unfold socketJoin updateRooms
  rw [List.map_map]
  apply List.map_congr_left
  intro e _
  by_cases hes : e.1 = sid
  · simp only [Function.comp_apply, if_pos hes]
    by_cases hr : room ∈ e.2
    · simp [hr]
    · simp [hr]
  · simp only [Function.comp_apply, if_neg hes]

theorem updateRooms_absent (st : ServerState) (sid : String)
    (f : List String → List String) (h : ∀ e ∈ st, e.1 ≠ sid) :
    updateRooms st sid f = st := by
  induction st with
  | nil => rfl
  | cons e rest ih =>
    unfold updateRooms
    simp only [List.map_cons]
    rw [if_neg (h e (List.mem_cons_self e rest))]
    have htail := ih (fun x hx => h x (List.mem_cons_of_mem e hx))
    unfold updateRooms at htail
    rw [htail]

theorem socketLeave_noop (st : ServerState) (sid room : String)
    (hnd : (st.map Prod.fst).Nodup) (hb : memberOf st sid room = false) :
    socketLeave st sid room = st := by
  induction st with
  | nil => rfl
  | cons e rest ih =>
    rw [List.map_cons, List.nodup_cons] at hnd
    unfold socketLeave updateRooms
    simp only [List.map_cons]
    by_cases hes : e.1 = sid
    · rw [if_pos hes]
      have hm : room ∉ e.2 := by
        unfold memberOf at hb
        rw [roomsOf_cons_eq e rest sid hes] at hb
        intro hmem
        simp [hmem] at hb
      have hfilter : e.2.filter (fun r => r ≠ room) = e.2 := by
        apply List.filter_eq_self.mpr
        intro a ha
        simp only [decide_eq_true_eq]
        intro heq
        exact hm (heq ▸ ha)
      rw [hfilter]
      have habs : ∀ x ∈ rest, x.1 ≠ sid := by
        intro x hx hxsid
        exact hnd.1 (List.mem_map.mpr ⟨x, hx, by rw [hxsid, ← hes]⟩)
      have htail := updateRooms_absent rest sid (fun rs => rs.filter (fun r => r ≠ room)) habs
      unfold updateRooms at htail
      rw [htail]
    · rw [if_neg hes]
      have hb2 : memberOf rest sid room = false := by
        unfold memberOf at hb ⊢
        rw [roomsOf_cons_ne e rest sid hes] at hb
        exact hb
      have htail := ih hnd.2 hb2
      unfold socketLeave updateRooms at htail
      rw [htail]

theorem memberOf_socketLeave_self (st : ServerState) (sid room : String) :
    memberOf (socketLeave st sid room) sid room = false := by
  induction st with
  | nil => rfl
  | cons e rest ih =>
    unfold socketLeave updateRooms
    simp only [List.map_cons]
    by_cases hes : e.1 = sid
    · rw [if_pos hes]
      unfold memberOf
      rw [roomsOf_cons_eq (e.1, e.2.filter (fun r => r ≠ room)) _ _ hes]
      simp [List.mem_filter]
    · rw [if_neg hes]
      unfold memberOf
      rw [roomsOf_cons_ne _ _ _ hes]
      unfold socketLeave updateRooms memberOf at ih
      exact ih

/-- C6: join is idempotent and leave on a non-joined room is a no-op; in
particular joining the alerts room twice and leaving once ends with no
membership in that room. The registry semantics follow the specification
of the external room registry, section 4.4. -/
theorem join_idempotent_leave_noop (st : ServerState) (sid room : String)
    (hnd : (st.map Prod.fst).Nodup) (hb : memberOf st sid room = false) :
    socketJoin (socketJoin st sid room) sid room = socketJoin st sid room ∧
    socketLeave st sid room = st ∧
    memberOf (socketLeave (socketJoin (socketJoin st sid "inventory-alerts")
        sid "inventory-alerts") sid "inventory-alerts") sid "inventory-alerts" = false :=
  ⟨socketJoin_idem st sid room, socketLeave_noop st sid room hnd hb,
   memberOf_socketLeave_self _ sid "inventory-alerts"⟩

theorem join_idempotent_leave_noop_witness :
    ([("a", ([] : List String))].map Prod.fst).Nodup ∧
    memberOf [("a", [])] "a" "inventory-alerts" = false ∧
    (socketJoin (socketJoin [("a", [])] "a" "inventory-alerts") "a" "inventory-alerts" =
       socketJoin [("a", [])] "a" "inventory-alerts" ∧
     socketLeave [("a", [])] "a" "inventory-alerts" = [("a", [])] ∧
     memberOf (socketLeave (socketJoin (socketJoin [("a", [])] "a" "inventory-alerts")
         "a" "inventory-alerts") "a" "inventory-alerts") "a" "inventory-alerts" = false) :=
  ⟨by decide, by decide,
   join_idempotent_leave_noop [("a", [])] "a" "inventory-alerts" (by decide) (by decide)⟩

theorem roomsOf_updateRooms_ne (st : ServerState) (tgt sid : String)
    (f : List String → List String) (h : tgt ≠ sid) :
    roomsOf (updateRooms st tgt f) sid = roomsOf st sid := by
  induction st with
  | nil => rfl
  | cons e rest ih =>
    unfold updateRooms
    simp only [List.map_cons]
    by_cases het : e.1 = tgt
    · rw [if_pos het]
      have hns : e.1 ≠ sid := fun hs => h (het ▸ hs)
      rw [roomsOf_cons_ne (e.1, f e.2) _ _ hns, roomsOf_cons_ne e rest sid hns]
      unfold updateRooms at ih
      exact ih
    · rw [if_neg het]
      by_cases hs : e.1 = sid
      · rw [roomsOf_cons_eq e _ _ hs, roomsOf_cons_eq e rest sid hs]
      · rw [roomsOf_cons_ne e _ _ hs, roomsOf_cons_ne e rest sid hs]
        unfold updateRooms at ih
        exact ih

theorem roomsOf_append_ne (st : ServerState) (s sid : String) (rs : List String)
    (h : s ≠ sid) : roomsOf (st ++ [(s, rs)]) sid = roomsOf st sid := by
  induction st with
  | nil =>
    show roomsOf [(s, rs)] sid = roomsOf [] sid
    rw [roomsOf_cons_ne (s, rs) [] sid h]
  | cons e rest ih =>
    rw [List.cons_append]
    by_cases hs : e.1 = sid
    · rw [roomsOf_cons_eq e _ _ hs, roomsOf_cons_eq e rest sid hs]
    · rw [roomsOf_cons_ne e _ _ hs, roomsOf_cons_ne e rest sid hs]
      exact ih

theorem roomsOf_filter_ne (st : ServerState) (s sid : String) (h : s ≠ sid) :
    roomsOf (st.filter (fun e => e.1 ≠ s)) sid = roomsOf st sid := by
  induction st with
  | nil => rfl
  | cons e rest ih =>
    by_cases hes : e.1 = s
    · rw [List.filter_cons_of_neg (by simp [hes])]
      have hns : e.1 ≠ sid := fun hx => h (hes ▸ hx)
      rw [roomsOf_cons_ne e rest sid hns]
      exact ih
    · rw [List.filter_cons_of_pos (by simp [hes])]
      by_cases hs : e.1 = sid
      · rw [roomsOf_cons_eq e _ _ hs, roomsOf_cons_eq e rest sid hs]
      · rw [roomsOf_cons_ne e _ _ hs, roomsOf_cons_ne e rest sid hs]
        exact ih

/-- C7: handling a broker message returns the registry unchanged, and a
client input issued by one connection leaves every other connection
membership list untouched; only a connection own join, leave or
disconnect can alter its entry. -/
theorem broker_dispatch_preserves_registry (st : ServerState)
    (now channel message : String) (inp : ServerInput) (sid other : String)
    (ha : actor inp = some other) (hne : other ≠ sid) :
    (step st (.redisMsg now channel message)).1 = st ∧
    roomsOf (step st inp).1 sid = roomsOf st sid := by
  refine ⟨rfl, ?_⟩
  cases inp with
  | redisMsg n c m => rfl
  | connect s =>
    injection ha with hs
    subst hs
    exact roomsOf_append_ne st s sid [] hne
  | joinInventoryUpdates s =>
    injection ha with hs
    subst hs
    exact roomsOf_updateRooms_ne st s sid
      (fun rs => if "inventory-updates" ∈ rs then rs else rs ++ ["inventory-updates"]) hne
  | joinInventoryAlerts s =>
    injection ha with hs
    subst hs
    exact roomsOf_updateRooms_ne st s sid
      (fun rs => if "inventory-alerts" ∈ rs then rs else rs ++ ["inventory-alerts"]) hne
  | leaveInventoryUpdates s =>
    injection ha with hs
    subst hs
    exact roomsOf_updateRooms_ne st s sid
      (fun rs => rs.filter (fun r => r ≠ "inventory-updates")) hne
  | leaveInventoryAlerts s =>
    injection ha with hs
    subst hs
    exact roomsOf_updateRooms_ne st s sid
      (fun rs => rs.filter (fun r => r ≠ "inventory-alerts")) hne
  | disconnect s =>
    injection ha with hs
    subst hs
    exact roomsOf_filter_ne st s sid hne

theorem broker_dispatch_preserves_registry_witness :
    actor (.joinInventoryUpdates "b") = some "b" ∧ "b" ≠ "a" ∧
    ((step [("a", ["inventory-alerts"])]
        (.redisMsg "T" "inventory" "\x7b\x7d")).1 = [("a", ["inventory-alerts"])] ∧
     roomsOf (step [("a", ["inventory-alerts"])] (.joinInventoryUpdates "b")).1 "a" =
       roomsOf [("a", ["inventory-alerts"])] "a") :=
  ⟨rfl, by decide,
   broker_dispatch_preserves_registry [("a", ["inventory-alerts"])] "T" "inventory"
     "\x7b\x7d" (.joinInventoryUpdates "b") "a" "b" rfl (by decide)⟩

/-- Record the specification describes as the default alert record: fixed
type, message and severity, the enrichment-time timestamp, and the two
count fields taken verbatim from the payload. Stated from the words of
the claim, for comparison with the source-derived enrichment. -/
def specAlertDefaults (now : String) (fs : List (String × JVal)) : List (String × JVal) :=
  [("type", JVal.str "count_exceeded"),
   ("message", JVal.str "Item count exceeded the limit."),
   ("current_count", (jlookup fs "current_count").getD .undefined),
   ("threshold", (jlookup fs "threshold").getD .undefined),
   ("severity", JVal.str "warning"),
   ("timestamp", JVal.str now)]

/-- Enriched record as the specification words it: the default record
overlaid field for field by every field present in the payload, the
payload value winning for every field it carries. -/
def specEnriched (now : String) (fs : List (String × JVal)) : List (String × JVal) :=
  overlay (specAlertDefaults now fs) fs

/-- Two base records relatable by an overlay of fields with the given
keys: keys agree positionally and any value disagreement sits at a key
the overlay carries. -/
def coveredBy (ks : List String) (p q : String × JVal) : Prop :=
  p.1 = q.1 ∧ (p.2 ≠ q.2 → p.1 ∈ ks)

theorem coveredBy_nil_eq {b₁ b₂ : List (String × JVal)}
    (h : List.Forall₂ (coveredBy []) b₁ b₂) : b₁ = b₂ := by
  induction h with
  | nil => rfl
  | cons hpq _ ih =>
    rename_i p q l₁ l₂ _
    have hv : p.2 = q.2 := not_not.mp (fun hne => absurd (hpq.2 hne) (List.not_mem_nil _))
    rw [Prod.ext hpq.1 hv, ih]

theorem coveredBy_anyKey {ks : List String} {k : String} {b₁ b₂ : List (String × JVal)}
    (h : List.Forall₂ (coveredBy ks) b₁ b₂) :
    b₁.any (fun p => p.1 = k) = b₂.any (fun p => p.1 = k) := by
  induction h with
  | nil => rfl
  | cons hpq _ ih => simp [List.any_cons, hpq.1, ih]

theorem coveredBy_weaken {k : String} {ks : List String} {b₁ b₂ : List (String × JVal)}
    (h : List.Forall₂ (coveredBy (k :: ks)) b₁ b₂) (hk : ∀ p ∈ b₁, p.1 ≠ k) :
    List.Forall₂ (coveredBy ks) b₁ b₂ := by
  induction h with
  | nil => exact .nil
  | cons hpq _ ih =>
    refine .cons ⟨hpq.1, fun hne => ?_⟩ (ih (fun p hp => hk p (List.mem_cons_of_mem _ hp)))
    rcases List.mem_cons.mp (hpq.2 hne) with he | hm
    · exact absurd he (hk _ (List.mem_cons_self _ _))
    · exact hm

theorem objSet_coveredBy {k : String} {ks : List String} (v : JVal)
    {b₁ b₂ : List (String × JVal)} (h : List.Forall₂ (coveredBy (k :: ks)) b₁ b₂) :
    List.Forall₂ (coveredBy ks) (objSet b₁ k v) (objSet b₂ k v) := by
  unfold objSet
  rw [← coveredBy_anyKey h]
  cases hany : b₁.any (fun p => p.1 = k) with
  | true =>
    simp only [if_true]
    clear hany
    induction h with
    | nil => exact .nil
    | cons hpq _ ih =>
      rename_i p q l₁ l₂ _
      simp only [List.map_cons]
      by_cases hpk : p.1 = k
      · rw [if_pos hpk, if_pos (hpq.1 ▸ hpk)]
        exact .cons ⟨rfl, fun hne => absurd rfl hne⟩ ih
      · rw [if_neg hpk, if_neg (hpq.1 ▸ hpk)]
        refine .cons ⟨hpq.1, fun hne => ?_⟩ ih
        rcases List.mem_cons.mp (hpq.2 hne) with he | hm
        · exact absurd he hpk
        · exact hm
  | false =>
    simp only [Bool.false_eq_true, if_false]
    have hk : ∀ p ∈ b₁, p.1 ≠ k := by
      intro p hp
      have := List.any_eq_false.mp hany p hp
      simpa using this
    exact List.rel_append (coveredBy_weaken h hk)
      (.cons ⟨rfl, fun hne => absurd rfl hne⟩ .nil)

theorem overlay_congr (fs : List (String × JVal)) :
    ∀ {b₁ b₂ : List (String × JVal)},
      List.Forall₂ (coveredBy (fs.map Prod.fst)) b₁ b₂ → overlay b₁ fs = overlay b₂ fs := by
  induction fs with
  | nil => exact fun h => coveredBy_nil_eq h
  | cons kv rest ih =>
    intro b₁ b₂ h
    show overlay (objSet b₁ kv.1 kv.2) rest = overlay (objSet b₂ kv.1 kv.2) rest
    exact ih (objSet_coveredBy kv.2 h)

theorem jor_lookup_default {fs : List (String × JVal)} {k : String} {d : JVal}
    (hne : jor ((jlookup fs k).getD .undefined) d ≠ d) : k ∈ fs.map Prod.fst := by
  cases hl : jlookup fs k with
  | none => rw [hl] at hne; exact absurd rfl hne
  | some v =>
    unfold jlookup at hl
    cases hf : fs.find? (fun p => p.1 = k) with
    | none => rw [hf] at hl; cases hl
    | some p =>
      have hp := List.find?_some hf
      have hmem := List.mem_of_find?_eq_some hf
      have hpk : p.1 = k := by simpa using hp
      exact hpk ▸ List.mem_map_of_mem Prod.fst hmem

/-- C1: for every object payload the enriched record is exactly the
specification default record overlaid field for field by the payload
fields, the payload winning for every field it carries; in particular a
payload bearing severity critical and type custom yields those values in
the emitted record. -/
theorem alert_enrichment_is_default_overlaid_by_payload :
    (∀ (now : String) (fs : List (String × JVal)),
        alertData now (.obj fs) = .ok (.obj (specEnriched now fs))) ∧
    (∀ now : String, ∃ r : List (String × JVal),
        alertData now (.obj [("severity", .str "critical"), ("type", .str "custom")]) =
          .ok (.obj r) ∧
        jlookup r "severity" = some (.str "critical") ∧
        jlookup r "type" = some (.str "custom")) := by
  constructor
  · intro now fs
    have h1 : alertData now (.obj fs) = .ok (.obj (overlay
        [("type", JVal.str "count_exceeded"),
         ("message", jor ((jlookup fs "message").getD .undefined)
            (JVal.str "Item count exceeded the limit.")),
         ("current_count", (jlookup fs "current_count").getD .undefined),
         ("threshold", (jlookup fs "threshold").getD .undefined),
         ("severity", jor ((jlookup fs "severity").getD .undefined) (JVal.str "warning")),
         ("timestamp", jor ((jlookup fs "timestamp").getD .undefined) (JVal.str now))] fs)) := rfl
    rw [h1]
    unfold specEnriched specAlertDefaults
    refine congrArg (fun l => Except.ok (JVal.obj l)) (overlay_congr fs ?_)
    refine .cons ⟨rfl, fun hne => absurd rfl hne⟩ ?_
    refine .cons ⟨rfl, fun hne => jor_lookup_default hne⟩ ?_
    refine .cons ⟨rfl, fun hne => absurd rfl hne⟩ ?_
    refine .cons ⟨rfl, fun hne => absurd rfl hne⟩ ?_
    refine .cons ⟨rfl, fun hne => jor_lookup_default hne⟩ ?_
    exact .cons ⟨rfl, fun hne => jor_lookup_default hne⟩ .nil
  · intro now
    exact ⟨_, rfl, rfl, rfl⟩
